import Mathlib

/-!
Verification of the textedit line differ, change store and AI provider
gateway.  Definitions are shallow embeddings of the TypeScript sources:

* `src/client/src/lib/diff-utils.ts` — `generateDiff`, `diffToChanges`,
  `applyChanges`;
* `src/server/storage.ts` — `MemStorage` CRUD;
* `src/server/ai-providers.ts` — `getAIResponse` fallback and
  `parseAIResponseJSON`;
* `src/server/ai-services-enhanced.ts` — `multiProviderConsensus`;
* the route handlers (ai-edit persistence, PATCH change status).

External effects (vendor SDK calls, `JSON.parse`, `Math.random`, clocks)
are modelled as explicit parameters.
-/

/-! ## Line splitting and joining

`original.split('\n')` splits at every newline and keeps empty pieces, so
the empty string splits to the single empty line.  `lines.join('\n')`
is its inverse.  Both are modelled on the underlying character list. -/

def splitLinesCore : List Char → List (List Char)
  | [] => [[]]
  | c :: rest =>
    match splitLinesCore rest with
    | [] => [[]]
    | l :: ls => if c = '\n' then [] :: l :: ls else (c :: l) :: ls

/-- `s.split('\n')` (JavaScript `String.prototype.split` with a single-char
separator): `n` newlines yield `n+1` pieces, empty pieces included. -/
def splitLines (s : String) : List String :=
  (splitLinesCore s.data).map (fun cs => String.mk cs)

def joinLinesCore : List (List Char) → List Char
  | [] => []
  | [l] => l
  | l :: ls => l ++ '\n' :: joinLinesCore ls

/-- `lines.join('\n')`. -/
def joinLines (lines : List String) : String :=
  String.mk (joinLinesCore (lines.map String.data))

theorem splitLinesCore_ne_nil (cs : List Char) : splitLinesCore cs ≠ [] := by
  cases cs with
  | nil => simp [splitLinesCore]
  | cons c rest =>
    simp only [splitLinesCore]
    cases splitLinesCore rest with
    | nil => simp
    | cons l ls =>
      by_cases h : c = '\n' <;> simp [h]

theorem splitLines_ne_nil (s : String) : splitLines s ≠ [] := by
  simp [splitLines, splitLinesCore_ne_nil s.data]

theorem joinLinesCore_splitLinesCore (cs : List Char) :
    joinLinesCore (splitLinesCore cs) = cs := by
  induction cs with
  | nil => simp [splitLinesCore, joinLinesCore]
  | cons c rest ih =>
    rcases hrest : splitLinesCore rest with _ | ⟨l, ls⟩
    · exact absurd hrest (splitLinesCore_ne_nil rest)
    · rw [hrest] at ih
      by_cases h : c = '\n'
      · simp only [splitLinesCore, hrest, if_pos h]
        cases ls <;> simp_all [joinLinesCore]
      · simp only [splitLinesCore, hrest, if_neg h]
        cases ls <;> simp_all [joinLinesCore]

theorem string_mk_data (s : String) : String.mk s.data = s := by
  cases s
  rfl

theorem joinLines_splitLines (s : String) : joinLines (splitLines s) = s := by
  simp only [joinLines, splitLines, List.map_map]
  have hmap : ∀ cs : List (List Char), cs.map (String.data ∘ fun l => String.mk l) = cs := by
    intro cs
    induction cs with
    | nil => rfl
    | cons l ls ih => simp [ih]
  rw [hmap, joinLinesCore_splitLinesCore, string_mk_data]

/-! ## The line differ (`diff-utils.ts`, `generateDiff`)

`DiffLine` mirrors the `DiffLine` interface; absent optional fields are
`none`.  The walk is embedded with the two remaining suffixes of the
line arrays together with the numeric cursors `originalIndex` /
`modifiedIndex`; `A[originalIndex + 1]` becomes `as.head?` on the
suffix. -/

inductive DiffType where
  | equal | insert | delete | replace
deriving DecidableEq, Repr

structure DiffLine where
  type : DiffType
  originalIndex : Option Nat := none
  modifiedIndex : Option Nat := none
  content : String
  originalContent : Option String := none
deriving DecidableEq, Repr

/-- The `while` loop of `generateDiff` (diff-utils.ts lines 20–84).
`A`/`B` are the not-yet-consumed suffixes of the original/modified line
arrays; `i`/`j` are the values of `originalIndex`/`modifiedIndex`. -/
def generateDiffAux (A B : List String) (i j : Nat) : List DiffLine :=
  match A, B with
  | [], [] => []
  | [], b :: bs =>
    { type := .insert, modifiedIndex := some j, content := b }
      :: generateDiffAux [] bs i (j+1)
  | a :: as, [] =>
    { type := .delete, originalIndex := some i, content := a }
      :: generateDiffAux as [] (i+1) j
  | a :: as, b :: bs =>
    if a = b then
      { type := .equal, originalIndex := some i, modifiedIndex := some j, content := a }
        :: generateDiffAux as bs (i+1) (j+1)
    else if as.head? = some b then
      { type := .delete, originalIndex := some i, content := a }
        :: generateDiffAux as (b :: bs) (i+1) j
    else if bs.head? = some a then
      { type := .insert, modifiedIndex := some j, content := b }
        :: generateDiffAux (a :: as) bs i (j+1)
    else
      { type := .replace, originalIndex := some i, modifiedIndex := some j,
        content := b, originalContent := some a }
        :: generateDiffAux as bs (i+1) (j+1)
termination_by A.length + B.length
decreasing_by all_goals simp <;> omega

/-- `generateDiff(original, modified)` from diff-utils.ts. -/
def generateDiff (original modified : String) : List DiffLine :=
  generateDiffAux (splitLines original) (splitLines modified) 0 0

/-- The walk exactly as the specification words it (claim C1): index
cursors `i`, `j` into the full line sequences `A`, `B`, with the stated
case order.  Out-of-range lookups `A[i+1]`, `B[j+1]` compare unequal to
any line, as in JavaScript. -/
def specDiffWalk (A B : List String) (i j : Nat) : List DiffLine :=
  if hA : A.length ≤ i then
    if hB : B.length ≤ j then []
    else
      { type := .insert, modifiedIndex := some j, content := B.get ⟨j, by omega⟩ }
        :: specDiffWalk A B i (j+1)
  else if hB : B.length ≤ j then
    { type := .delete, originalIndex := some i, content := A.get ⟨i, by omega⟩ }
      :: specDiffWalk A B (i+1) j
  else if A.get ⟨i, by omega⟩ = B.get ⟨j, by omega⟩ then
    { type := .equal, originalIndex := some i, modifiedIndex := some j,
      content := A.get ⟨i, by omega⟩ } :: specDiffWalk A B (i+1) (j+1)
  else if A.get? (i+1) = some (B.get ⟨j, by omega⟩) then
    { type := .delete, originalIndex := some i, content := A.get ⟨i, by omega⟩ }
      :: specDiffWalk A B (i+1) j
  else if B.get? (j+1) = some (A.get ⟨i, by omega⟩) then
    { type := .insert, modifiedIndex := some j, content := B.get ⟨j, by omega⟩ }
      :: specDiffWalk A B i (j+1)
  else
    { type := .replace, originalIndex := some i, modifiedIndex := some j,
      content := B.get ⟨j, by omega⟩, originalContent := some (A.get ⟨i, by omega⟩) }
      :: specDiffWalk A B (i+1) (j+1)
termination_by A.length - i + (B.length - j)
decreasing_by all_goals omega

theorem head?_drop {α : Type} (l : List α) (n : Nat) : (l.drop n).head? = l.get? n := by
  by_cases h : n < l.length
  · rw [List.drop_eq_getElem_cons h]
    simp [List.get?_eq_getElem?, List.getElem?_eq_getElem h]
  · rw [List.drop_eq_nil_of_le (by omega), List.get?_eq_none.mpr (by omega)]
    rfl

theorem generateDiffAux_drop (A B : List String) (i j : Nat) :
    generateDiffAux (A.drop i) (B.drop j) i j = specDiffWalk A B i j := by
  induction i, j using specDiffWalk.induct A B with
  | case1 i j hA hB =>
    rw [specDiffWalk, dif_pos hA, dif_pos hB,
      List.drop_eq_nil_of_le hA, List.drop_eq_nil_of_le hB, generateDiffAux]
  | case2 i j hA hB ih =>
    rw [specDiffWalk, dif_pos hA, dif_neg hB]
    rw [List.drop_eq_nil_of_le hA] at ih ⊢
    rw [List.drop_eq_getElem_cons (l := B) (by omega), generateDiffAux]
    simp only [List.get_eq_getElem]
    exact congrArg _ ih
  | case3 i j hA hB ih =>
    rw [specDiffWalk, dif_neg hA, dif_pos hB]
    rw [List.drop_eq_nil_of_le hB] at ih ⊢
    rw [List.drop_eq_getElem_cons (l := A) (by omega), generateDiffAux]
    simp only [List.get_eq_getElem]
    exact congrArg _ ih
  | case4 i j hA hB heq ih =>
    rw [specDiffWalk, dif_neg hA, dif_neg hB, if_pos heq]
    rw [List.drop_eq_getElem_cons (l := A) (by omega),
      List.drop_eq_getElem_cons (l := B) (by omega), generateDiffAux]
    simp only [List.get_eq_getElem] at heq
    rw [if_pos heq]
    simp only [List.get_eq_getElem]
    exact congrArg _ ih
  | case5 i j hA hB hne hlook ih =>
    rw [specDiffWalk, dif_neg hA, dif_neg hB, if_neg hne, if_pos hlook]
    rw [List.drop_eq_getElem_cons (l := A) (by omega),
      List.drop_eq_getElem_cons (l := B) (by omega), generateDiffAux]
    simp only [List.get_eq_getElem] at hne hlook
    rw [if_neg hne, head?_drop, if_pos hlook]
    rw [← List.drop_eq_getElem_cons (l := B) (by omega)]
    simp only [List.get_eq_getElem]
    exact congrArg _ ih
  | case6 i j hA hB hne hlook1 hlook2 ih =>
    rw [specDiffWalk, dif_neg hA, dif_neg hB, if_neg hne, if_neg hlook1, if_pos hlook2]
    rw [List.drop_eq_getElem_cons (l := A) (by omega),
      List.drop_eq_getElem_cons (l := B) (by omega), generateDiffAux]
    simp only [List.get_eq_getElem] at hne hlook1 hlook2
    rw [if_neg hne, head?_drop, if_neg hlook1, head?_drop, if_pos hlook2]
    rw [← List.drop_eq_getElem_cons (l := A) (by omega)]
    simp only [List.get_eq_getElem]
    exact congrArg _ ih
  | case7 i j hA hB hne hlook1 hlook2 ih =>
    rw [specDiffWalk, dif_neg hA, dif_neg hB, if_neg hne, if_neg hlook1, if_neg hlook2]
    rw [List.drop_eq_getElem_cons (l := A) (by omega),
      List.drop_eq_getElem_cons (l := B) (by omega), generateDiffAux]
    simp only [List.get_eq_getElem] at hne hlook1 hlook2
    rw [if_neg hne, head?_drop, if_neg hlook1, head?_drop, if_neg hlook2]
    simp only [List.get_eq_getElem]
    exact congrArg _ ih

/-- Claim C1: `generateDiff` splits both inputs on newline and walks the
two cursors from 0, emitting entries exactly in the case order the
specification states (exhaustion inserts/deletes, equality, original-side
lookahead delete, modified-side lookahead insert, replace). -/
theorem generateDiff_follows_spec_walk (original modified : String) :
    generateDiff original modified =
      specDiffWalk (splitLines original) (splitLines modified) 0 0 := by
  have h := generateDiffAux_drop (splitLines original) (splitLines modified) 0 0
  simpa [generateDiff] using h

/-! ## Shape lemmas about the diff walk (claims C3, C4) -/

theorem gda_nil_left_insert (B : List String) :
    ∀ (i j : Nat), ∀ e ∈ generateDiffAux [] B i j, e.type = DiffType.insert := by
  induction B with
  | nil => intro i j e he; simp [generateDiffAux] at he
  | cons b bs ih =>
    intro i j e he
    simp only [generateDiffAux, List.mem_cons] at he
    rcases he with rfl | he
    · rfl
    · exact ih i (j+1) e he

theorem gda_nil_right_delete (A : List String) :
    ∀ (i j : Nat), ∀ e ∈ generateDiffAux A [] i j, e.type = DiffType.delete := by
  induction A with
  | nil => intro i j e he; simp [generateDiffAux] at he
  | cons a as ih =>
    intro i j e he
    simp only [generateDiffAux, List.mem_cons] at he
    rcases he with rfl | he
    · rfl
    · exact ih (i+1) j e he

theorem gda_refl_equal (S : List String) :
    ∀ (i j : Nat), ∀ e ∈ generateDiffAux S S i j, e.type = DiffType.equal := by
  induction S with
  | nil => intro i j e he; simp [generateDiffAux] at he
  | cons s S ih =>
    intro i j e he
    have hunf : generateDiffAux (s :: S) (s :: S) i j
        = { type := .equal, originalIndex := some i, modifiedIndex := some j,
            content := s } :: generateDiffAux S S (i+1) (j+1) := by
      simp [generateDiffAux]
    rw [hunf, List.mem_cons] at he
    rcases he with rfl | he
    · rfl
    · exact ih (i+1) (j+1) e he

theorem gda_refl_countP_zero (S : List String) (i j : Nat) (t : DiffType)
    (h : t ≠ DiffType.equal) :
    (generateDiffAux S S i j).countP (fun e => e.type == t) = 0 := by
  rw [List.countP_eq_zero]
  intro e he
  have he2 := gda_refl_equal S i j e he
  simp only [he2, beq_iff_eq]
  exact fun hh => h hh.symm

theorem gda_prefix (P : List String) :
    ∀ (L1 L2 : List String) (i j : Nat),
      ∃ pre, generateDiffAux (P ++ L1) (P ++ L2) i j
          = pre ++ generateDiffAux L1 L2 (i + P.length) (j + P.length)
        ∧ ∀ e ∈ pre, e.type = DiffType.equal := by
  induction P with
  | nil => intro L1 L2 i j; exact ⟨[], by simp, by simp⟩
  | cons p P ih =>
    intro L1 L2 i j
    obtain ⟨pre, h1, h2⟩ := ih L1 L2 (i+1) (j+1)
    refine ⟨{ type := .equal, originalIndex := some i, modifiedIndex := some j,
              content := p } :: pre, ?_, ?_⟩
    · have hunf : generateDiffAux (p :: (P ++ L1)) (p :: (P ++ L2)) i j
          = { type := .equal, originalIndex := some i, modifiedIndex := some j,
              content := p } :: generateDiffAux (P ++ L1) (P ++ L2) (i+1) (j+1) := by
        simp [generateDiffAux]
      rw [List.cons_append, List.cons_append, hunf, h1]
      have hi : i + 1 + P.length = i + (P.length + 1) := by omega
      have hj : j + 1 + P.length = j + (P.length + 1) := by omega
      simp [hi, hj]
    · intro e he
      rcases List.mem_cons.mp he with rfl | h
      · rfl
      · exact h2 _ h

theorem gda_delete_one (S : List String) :
    ∀ (x : String) (i j : Nat),
      (generateDiffAux (x :: S) S i j).countP (fun e => e.type == DiffType.delete) = 1
      ∧ ∀ e ∈ generateDiffAux (x :: S) S i j,
          e.type = DiffType.delete ∨ e.type = DiffType.equal := by
  induction S with
  | nil =>
    intro x i j
    have hunf : generateDiffAux [x] ([] : List String) i j
        = [{ type := .delete, originalIndex := some i, content := x }] := by
      simp [generateDiffAux]
    rw [hunf]
    constructor
    · simp
    · intro e he
      rw [List.mem_singleton] at he
      subst he
      left; rfl
  | cons s S ih =>
    intro x i j
    by_cases hxs : x = s
    · subst hxs
      have hunf : generateDiffAux (x :: x :: S) (x :: S) i j
          = { type := .equal, originalIndex := some i, modifiedIndex := some j,
              content := x } :: generateDiffAux (x :: S) S (i+1) (j+1) := by
        simp [generateDiffAux]
      obtain ⟨ihc, ihm⟩ := ih x (i+1) (j+1)
      rw [hunf]
      constructor
      · rw [List.countP_cons]
        simp [ihc]
      · intro e he
        rw [List.mem_cons] at he
        rcases he with rfl | he
        · right; rfl
        · exact ihm e he
    · have hunf : generateDiffAux (x :: s :: S) (s :: S) i j
          = { type := .delete, originalIndex := some i, content := x }
              :: generateDiffAux (s :: S) (s :: S) (i+1) j := by
        simp [generateDiffAux, hxs]
      rw [hunf]
      constructor
      · rw [List.countP_cons]
        rw [gda_refl_countP_zero (s :: S) (i+1) j DiffType.delete (by simp)]
        simp
      · intro e he
        rw [List.mem_cons] at he
        rcases he with rfl | he
        · left; rfl
        · right; exact gda_refl_equal (s :: S) (i+1) j e he

theorem gda_insert_one (S : List String) (x : String) (i j : Nat)
    (h1 : S.head? ≠ some x) (h2 : S.tail.head? ≠ some x) :
    (generateDiffAux S (x :: S) i j).countP (fun e => e.type == DiffType.insert) = 1
    ∧ ∀ e ∈ generateDiffAux S (x :: S) i j,
        e.type = DiffType.insert ∨ e.type = DiffType.equal := by
  cases S with
  | nil =>
    have hunf : generateDiffAux ([] : List String) [x] i j
        = [{ type := .insert, modifiedIndex := some j, content := x }] := by
      simp [generateDiffAux]
    rw [hunf]
    constructor
    · simp
    · intro e he
      rw [List.mem_singleton] at he
      subst he
      left; rfl
  | cons t T =>
    have hxt : ¬ t = x := fun h => h1 (by simp [h])
    have hT : T.head? ≠ some x := by simpa using h2
    have hunf : generateDiffAux (t :: T) (x :: t :: T) i j
        = { type := .insert, modifiedIndex := some j, content := x }
            :: generateDiffAux (t :: T) (t :: T) i (j+1) := by
      simp [generateDiffAux, hxt, hT]
    rw [hunf]
    constructor
    · rw [List.countP_cons]
      rw [gda_refl_countP_zero (t :: T) i (j+1) DiffType.insert (by simp)]
      simp
    · intro e he
      rw [List.mem_cons] at he
      rcases he with rfl | he
      · left; rfl
      · right; exact gda_refl_equal (t :: T) i (j+1) e he

theorem gda_single_left_no_delete :
    ∀ (B : List String), B ≠ [] → ∀ (a : String) (i j : Nat),
      ∀ e ∈ generateDiffAux [a] B i j, e.type ≠ DiffType.delete := by
  intro B
  induction B with
  | nil => intro h; exact absurd rfl h
  | cons b bs ih =>
    intro _ a i j e he
    by_cases hab : a = b
    · subst hab
      have hunf : generateDiffAux [a] (a :: bs) i j
          = { type := .equal, originalIndex := some i, modifiedIndex := some j,
              content := a } :: generateDiffAux [] bs (i+1) (j+1) := by
        simp [generateDiffAux]
      rw [hunf, List.mem_cons] at he
      rcases he with rfl | he
      · simp
      · rw [gda_nil_left_insert bs (i+1) (j+1) e he]
        decide
    · by_cases hlook : bs.head? = some a
      · have hbs : bs ≠ [] := by intro hn; rw [hn] at hlook; simp at hlook
        have hunf : generateDiffAux [a] (b :: bs) i j
            = { type := .insert, modifiedIndex := some j, content := b }
                :: generateDiffAux [a] bs i (j+1) := by
          simp [generateDiffAux, hab, hlook]
        rw [hunf, List.mem_cons] at he
        rcases he with rfl | he
        · simp
        · exact ih hbs a i (j+1) e he
      · have hunf : generateDiffAux [a] (b :: bs) i j
            = { type := .replace, originalIndex := some i, modifiedIndex := some j,
                content := b, originalContent := some a }
                :: generateDiffAux [] bs (i+1) (j+1) := by
          simp [generateDiffAux, hab, hlook]
        rw [hunf, List.mem_cons] at he
        rcases he with rfl | he
        · simp
        · rw [gda_nil_left_insert bs (i+1) (j+1) e he]
          decide

theorem gda_single_right_no_insert :
    ∀ (A : List String), A ≠ [] → ∀ (b : String) (i j : Nat),
      ∀ e ∈ generateDiffAux A [b] i j, e.type ≠ DiffType.insert := by
  intro A
  induction A with
  | nil => intro h; exact absurd rfl h
  | cons a as ih =>
    intro _ b i j e he
    by_cases hab : a = b
    · subst hab
      have hunf : generateDiffAux (a :: as) [a] i j
          = { type := .equal, originalIndex := some i, modifiedIndex := some j,
              content := a } :: generateDiffAux as [] (i+1) (j+1) := by
        simp [generateDiffAux]
      rw [hunf, List.mem_cons] at he
      rcases he with rfl | he
      · simp
      · rw [gda_nil_right_delete as (i+1) (j+1) e he]
        decide
    · by_cases hlook : as.head? = some b
      · have has : as ≠ [] := by intro hn; rw [hn] at hlook; simp at hlook
        have hunf : generateDiffAux (a :: as) [b] i j
            = { type := .delete, originalIndex := some i, content := a }
                :: generateDiffAux as [b] (i+1) j := by
          simp [generateDiffAux, hab, hlook]
        rw [hunf, List.mem_cons] at he
        rcases he with rfl | he
        · simp
        · exact ih has b (i+1) j e he
      · have hunf : generateDiffAux (a :: as) [b] i j
            = { type := .replace, originalIndex := some i, modifiedIndex := some j,
                content := b, originalContent := some a }
                :: generateDiffAux as [] (i+1) (j+1) := by
          simp [generateDiffAux, hab, hlook]
        rw [hunf, List.mem_cons] at he
        rcases he with rfl | he
        · simp
        · rw [gda_nil_right_delete as (i+1) (j+1) e he]
          decide

/-- Claim C3 (counterexample): `"b\na\nb"` differs from `"a\nb"` by exactly
one inserted line (`"b"` inserted at the front), yet `generateDiff` emits a
delete and two inserts, not exactly one insert with the rest equal: the
original-side lookahead (`A[i+1] == B[j]`) fires first and emits a delete. -/
theorem single_insert_claim_counterexample :
    ("a\nb" : String) ≠ "b\na\nb"
    ∧ splitLines "a\nb" = [] ++ ["a", "b"]
    ∧ splitLines "b\na\nb" = [] ++ ["b"] ++ ["a", "b"]
    ∧ generateDiff "a\nb" "b\na\nb" =
        [{ type := .delete, originalIndex := some 0, content := "a" },
         { type := .equal, originalIndex := some 1, modifiedIndex := some 0, content := "b" },
         { type := .insert, modifiedIndex := some 1, content := "a" },
         { type := .insert, modifiedIndex := some 2, content := "b" }]
    ∧ ¬ ((generateDiff "a\nb" "b\na\nb").countP (fun e => e.type == DiffType.insert) = 1
         ∧ ∀ e ∈ generateDiff "a\nb" "b\na\nb",
             e.type = DiffType.insert ∨ e.type = DiffType.equal) := by
  have hev : generateDiff "a\nb" "b\na\nb" =
      [{ type := .delete, originalIndex := some 0, content := "a" },
       { type := .equal, originalIndex := some 1, modifiedIndex := some 0, content := "b" },
       { type := .insert, modifiedIndex := some 1, content := "a" },
       { type := .insert, modifiedIndex := some 2, content := "b" }] := by
    simp [generateDiff, generateDiffAux, splitLines, splitLinesCore]
  refine ⟨by decide, by decide, by decide, hev, ?_⟩
  rw [hev]
  decide

/-- Claim C3 (amended): for a pair differing by exactly one deleted line the
diff is exactly one delete entry with all others equal, unconditionally; for
a pair differing by exactly one inserted line the same holds for insert
provided (writing the insertion point in its canonical rightmost form, i.e.
the inserted line differs from the line right after it) the line after that
also differs from the inserted line — otherwise the original-side lookahead
emits a delete first (see the counterexample). -/
theorem single_line_insert_delete_diff :
    (∀ (s1 s2 : String) (P S : List String) (x : String),
       splitLines s1 = P ++ S → splitLines s2 = P ++ [x] ++ S →
       S.head? ≠ some x → S.tail.head? ≠ some x →
       (generateDiff s1 s2).countP (fun e => e.type == DiffType.insert) = 1
       ∧ ∀ e ∈ generateDiff s1 s2, e.type = DiffType.insert ∨ e.type = DiffType.equal)
    ∧ (∀ (s1 s2 : String) (P S : List String) (x : String),
       splitLines s1 = P ++ [x] ++ S → splitLines s2 = P ++ S →
       (generateDiff s1 s2).countP (fun e => e.type == DiffType.delete) = 1
       ∧ ∀ e ∈ generateDiff s1 s2, e.type = DiffType.delete ∨ e.type = DiffType.equal) := by
  constructor
  · intro s1 s2 P S x hs1 hs2 h1 h2
    rw [generateDiff, hs1, hs2, List.append_assoc, List.singleton_append]
    obtain ⟨pre, hpre, hpreEq⟩ := gda_prefix P S (x :: S) 0 0
    rw [hpre]
    obtain ⟨hc, hm⟩ := gda_insert_one S x (0 + P.length) (0 + P.length) h1 h2
    constructor
    · rw [List.countP_append, hc]
      have hz : pre.countP (fun e => e.type == DiffType.insert) = 0 := by
        rw [List.countP_eq_zero]
        intro e he
        simp [hpreEq e he]
      rw [hz]
    · intro e he
      rcases List.mem_append.mp he with h | h
      · right; exact hpreEq e h
      · exact hm e h
  · intro s1 s2 P S x hs1 hs2
    rw [generateDiff, hs1, hs2, List.append_assoc, List.singleton_append]
    obtain ⟨pre, hpre, hpreEq⟩ := gda_prefix P (x :: S) S 0 0
    rw [hpre]
    obtain ⟨hc, hm⟩ := gda_delete_one S x (0 + P.length) (0 + P.length)
    constructor
    · rw [List.countP_append, hc]
      have hz : pre.countP (fun e => e.type == DiffType.delete) = 0 := by
        rw [List.countP_eq_zero]
        intro e he
        simp [hpreEq e he]
      rw [hz]
    · intro e he
      rcases List.mem_append.mp he with h | h
      · right; exact hpreEq e h
      · exact hm e h

/-- Witness for `single_line_insert_delete_diff`: `"a\nb\nc"` inserts `"b"`
into `"a\nc"`, and `"a\nc"` deletes `"b"` from `"a\nb\nc"`. -/
theorem single_line_insert_delete_diff_witness :
    ((generateDiff "a\nc" "a\nb\nc").countP (fun e => e.type == DiffType.insert) = 1
     ∧ ∀ e ∈ generateDiff "a\nc" "a\nb\nc",
         e.type = DiffType.insert ∨ e.type = DiffType.equal)
    ∧ ((generateDiff "a\nb\nc" "a\nc").countP (fun e => e.type == DiffType.delete) = 1
     ∧ ∀ e ∈ generateDiff "a\nb\nc" "a\nc",
         e.type = DiffType.delete ∨ e.type = DiffType.equal) :=
  ⟨single_line_insert_delete_diff.1 "a\nc" "a\nb\nc" ["a"] ["c"] "b"
     (by decide) (by decide) (by decide) (by decide),
   single_line_insert_delete_diff.2 "a\nb\nc" "a\nc" ["a"] ["c"] "b"
     (by decide) (by decide)⟩

/-- Claim C4 (counterexample): the empty string splits to one empty line, so
with an empty original the diff is a single replace entry pairing the empty
line with the first modified line — neither zero entries nor all-insert. -/
theorem empty_original_diff_counterexample :
    generateDiff "" "abc" =
      [{ type := .replace, originalIndex := some 0, modifiedIndex := some 0,
         content := "abc", originalContent := some "" }]
    ∧ generateDiff "" "abc" ≠ []
    ∧ ¬ (∀ e ∈ generateDiff "" "abc", e.type = DiffType.insert) := by
  have hev : generateDiff "" "abc" =
      [{ type := .replace, originalIndex := some 0, modifiedIndex := some 0,
         content := "abc", originalContent := some "" }] := by
    simp [generateDiff, generateDiffAux, splitLines, splitLinesCore]
  refine ⟨hev, ?_, ?_⟩
  · rw [hev]; decide
  · rw [hev]; decide

/-- Claim C4 (amended): `generateDiff` is a total function; on two empty
inputs it yields one equal entry for the single empty line; an empty
original rules out delete entries and an empty modified rules out insert
entries, but a replace/equal entry pairing the empty line can appear, so
the result need not be empty or all-insert/all-delete. -/
theorem empty_input_diff_behavior :
    generateDiff "" "" =
      [{ type := .equal, originalIndex := some 0, modifiedIndex := some 0, content := "" }]
    ∧ (∀ (m : String), ∀ e ∈ generateDiff "" m, e.type ≠ DiffType.delete)
    ∧ (∀ (o : String), ∀ e ∈ generateDiff o "", e.type ≠ DiffType.insert) := by
  refine ⟨by simp [generateDiff, generateDiffAux, splitLines, splitLinesCore], ?_, ?_⟩
  · intro m e he
    have h0 : splitLines "" = [""] := by decide
    rw [generateDiff, h0] at he
    exact gda_single_left_no_delete (splitLines m) (splitLines_ne_nil m) "" 0 0 e he
  · intro o e he
    have h0 : splitLines "" = [""] := by decide
    rw [generateDiff, h0] at he
    exact gda_single_right_no_insert (splitLines o) (splitLines_ne_nil o) "" 0 0 e he

/-- Witness for `empty_input_diff_behavior` at concrete inputs. -/
theorem empty_input_diff_behavior_witness :
    ({ type := .replace, originalIndex := some 0, modifiedIndex := some 0,
       content := "x", originalContent := some "" } : DiffLine).type ≠ DiffType.delete
    ∧ ({ type := .replace, originalIndex := some 0, modifiedIndex := some 0,
         content := "", originalContent := some "x" } : DiffLine).type ≠ DiffType.insert :=
  ⟨empty_input_diff_behavior.2.1 "x"
     { type := .replace, originalIndex := some 0, modifiedIndex := some 0,
       content := "x", originalContent := some "" }
     (by simp [generateDiff, generateDiffAux, splitLines, splitLinesCore]),
   empty_input_diff_behavior.2.2 "x"
     { type := .replace, originalIndex := some 0, modifiedIndex := some 0,
       content := "", originalContent := some "x" }
     (by simp [generateDiff, generateDiffAux, splitLines, splitLinesCore])⟩

/-! ## Changes (`@shared/schema.ts` client `Change`, `diffToChanges`,
ai-edit persistence, `applyChanges`) -/

structure Change where
  id : String
  type : String
  lineNumber : Int
  content : String
  originalContent : Option String := none
  status : String
deriving DecidableEq, Repr

/-- The `forEach` loop of `diffToChanges` (diff-utils.ts lines 89–127):
`changeId` is the running counter (starting at 1), `equal` entries are
skipped, and the `(line.modifiedIndex || 0)` / `(line.originalIndex || 0)`
fallbacks become `Option.getD 0`. -/
def diffToChangesAux : List DiffLine → Nat → List Change
  | [], _ => []
  | line :: rest, changeId =>
    match line.type with
    | DiffType.equal => diffToChangesAux rest changeId
    | DiffType.insert =>
      { id := toString changeId, type := "addition",
        lineNumber := (line.modifiedIndex.getD 0 : Int) + 1,
        content := line.content, originalContent := line.originalContent,
        status := "pending" } :: diffToChangesAux rest (changeId + 1)
    | DiffType.delete =>
      { id := toString changeId, type := "deletion",
        lineNumber := (line.originalIndex.getD 0 : Int) + 1,
        content := line.content, originalContent := line.originalContent,
        status := "pending" } :: diffToChangesAux rest (changeId + 1)
    | DiffType.replace =>
      { id := toString changeId, type := "modification",
        lineNumber := (line.modifiedIndex.getD 0 : Int) + 1,
        content := line.content, originalContent := line.originalContent,
        status := "pending" } :: diffToChangesAux rest (changeId + 1)

def diffToChanges (diff : List DiffLine) : List Change :=
  diffToChangesAux diff 1

/-- The mapping claim C2 states for a single non-equal entry numbered `k`:
insert becomes addition, delete becomes deletion, replace becomes
modification; the line number is the 1-based modified-side index for
insert/replace and the original-side index for delete; the status starts
pending. -/
def specChangeOfEntry (k : Nat) (e : DiffLine) : Change :=
  { id := toString k,
    type := match e.type with
            | DiffType.insert => "addition"
            | DiffType.delete => "deletion"
            | _ => "modification",
    lineNumber := ((match e.type with
            | DiffType.delete => e.originalIndex
            | _ => e.modifiedIndex).getD 0 : Int) + 1,
    content := e.content,
    originalContent := e.originalContent,
    status := "pending" }

/-- Claim C2's description of `toChanges` as a whole: drop the equal
entries and map the survivors, numbering them from 1. -/
def specToChanges (diff : List DiffLine) : List Change :=
  ((diff.filter (fun e => e.type != DiffType.equal)).enumFrom 1).map
    (fun p => specChangeOfEntry p.1 p.2)

/-- The ai-edit handler (`POST /api/documents/:id/ai-edit`) persists the AI
changes on the new revision, giving each a fresh `Math.random` id (modelled
by the supplied `freshId`) and the hard-coded status "pending". -/
def aiEditRevisionChanges (freshId : Nat → String) (chs : List Change) : List Change :=
  chs.enum.map (fun p =>
    { id := freshId p.1, type := p.2.type, lineNumber := p.2.lineNumber,
      content := p.2.content, originalContent := p.2.originalContent,
      status := "pending" })

theorem diffToChangesAux_eq_spec :
    ∀ (diff : List DiffLine) (k : Nat),
      diffToChangesAux diff k
        = ((diff.filter (fun e => e.type != DiffType.equal)).enumFrom k).map
            (fun p => specChangeOfEntry p.1 p.2) := by
  intro diff
  induction diff with
  | nil => intro k; rfl
  | cons line rest ih =>
    intro k
    cases h : line.type with
    | equal => simp [diffToChangesAux, h, List.filter_cons, ih]
    | insert => simp [diffToChangesAux, h, List.filter_cons, specChangeOfEntry, ih]
    | delete => simp [diffToChangesAux, h, List.filter_cons, specChangeOfEntry, ih]
    | replace => simp [diffToChangesAux, h, List.filter_cons, specChangeOfEntry, ih]

/-- Claim C2: `diffToChanges` emits nothing for equal entries and maps
insert/delete/replace to addition/deletion/modification with the stated
1-based line numbers; every emitted Change and every Change the ai-edit
handler persists has status "pending". -/
theorem diffToChanges_mapping_and_pending :
    (∀ diff : List DiffLine, diffToChanges diff = specToChanges diff)
    ∧ (∀ (diff : List DiffLine) (c : Change), c ∈ diffToChanges diff → c.status = "pending")
    ∧ (∀ (freshId : Nat → String) (chs : List Change) (c : Change),
         c ∈ aiEditRevisionChanges freshId chs → c.status = "pending") := by
  refine ⟨?_, ?_, ?_⟩
  · intro diff
    exact diffToChangesAux_eq_spec diff 1
  · intro diff c hc
    rw [diffToChanges, diffToChangesAux_eq_spec] at hc
    obtain ⟨p, _, rfl⟩ := List.mem_map.mp hc
    rfl
  · intro freshId chs c hc
    obtain ⟨p, _, rfl⟩ := List.mem_map.mp hc
    rfl

/-- Witness for `diffToChanges_mapping_and_pending` at a concrete diff
entry list and a concrete ai-edit change list. -/
theorem diffToChanges_mapping_and_pending_witness :
    ({ id := "1", type := "addition", lineNumber := (3 : Int), content := "hi",
       originalContent := none, status := "pending" } : Change).status = "pending"
    ∧ ({ id := "0", type := "addition", lineNumber := (3 : Int), content := "hi",
         originalContent := none, status := "pending" } : Change).status = "pending" :=
  ⟨diffToChanges_mapping_and_pending.2.1
     [{ type := .insert, modifiedIndex := some 2, content := "hi" }]
     { id := "1", type := "addition", lineNumber := (3 : Int), content := "hi",
       originalContent := none, status := "pending" }
     (by decide),
   diffToChanges_mapping_and_pending.2.2 (fun n => toString n)
     [{ id := "9", type := "addition", lineNumber := (3 : Int), content := "hi",
        originalContent := none, status := "rejected" }]
     { id := "0", type := "addition", lineNumber := (3 : Int), content := "hi",
       originalContent := none, status := "pending" }
     (by decide)⟩

/-- `lines.splice(lineIndex, 1)` (diff-utils.ts `applyChanges`): a negative
start counts from the end clamped at 0; a start beyond the length removes
nothing. -/
def spliceRemove (lines : List String) (start : Int) : List String :=
  lines.eraseIdx (if start < 0 then (lines.length + start).toNat else start.toNat)

/-- `lines[lineIndex] = v`: a negative index creates a plain object property
that `join` ignores; an index past the end extends the array with holes,
which `join('\n')` renders as empty strings. -/
def setLineJS (lines : List String) (idx : Int) (v : String) : List String :=
  if idx < 0 then lines
  else if idx.toNat < lines.length then lines.set idx.toNat v
  else lines ++ List.replicate (idx.toNat - lines.length) "" ++ [v]

/-- `applyChanges(content, changes)` from diff-utils.ts lines 129–155.
Accepted deletions remove their line; rejected additions remove the added
line; rejected modifications with a truthy `originalContent` (JavaScript:
present and nonempty) restore it; everything else leaves the lines alone. -/
def applyChanges (content : String) (changes : List Change) : String :=
  let lines := splitLines content
  let acceptedChanges := changes.filter (fun c => c.status == "accepted")
  let rejectedChanges := changes.filter (fun c => c.status == "rejected")
  let lines1 := acceptedChanges.foldl
    (fun ls c => if c.type == "deletion" then spliceRemove ls (c.lineNumber - 1) else ls)
    lines
  let lines2 := rejectedChanges.foldl
    (fun ls c =>
      if c.type == "addition" then spliceRemove ls (c.lineNumber - 1)
      else if c.type == "modification" then
        match c.originalContent with
        | some oc => if oc == "" then ls else setLineJS ls (c.lineNumber - 1) oc
        | none => ls
      else ls)
    lines1
  joinLines lines2

/-- Claim C10: a change list in which every change is still pending leaves
the content unchanged — only accepted deletions and rejected
additions/modifications touch the line list. -/
theorem apply_changes_pending_identity (content : String) (changes : List Change)
    (h : ∀ c ∈ changes, c.status = "pending") :
    applyChanges content changes = content := by
  have hacc : changes.filter (fun c => c.status == "accepted") = [] := by
    rw [List.filter_eq_nil_iff]
    intro c hc
    simp [h c hc]
  have hrej : changes.filter (fun c => c.status == "rejected") = [] := by
    rw [List.filter_eq_nil_iff]
    intro c hc
    simp [h c hc]
  simp only [applyChanges, hacc, hrej, List.foldl_nil]
  exact joinLines_splitLines content

/-- Witness for `apply_changes_pending_identity`: one pending modification
leaves `"x\ny"` unchanged. -/
theorem apply_changes_pending_identity_witness :
    applyChanges "x\ny"
      [{ id := "1", type := "modification", lineNumber := (2 : Int),
         content := "z", originalContent := some "y", status := "pending" }] = "x\ny" :=
  apply_changes_pending_identity "x\ny"
    [{ id := "1", type := "modification", lineNumber := (2 : Int),
       content := "z", originalContent := some "y", status := "pending" }]
    (by decide)

/-! ## AI provider gateway (`ai-providers.ts`)

The vendor SDK calls are external; a `GatewayEnv` packages one attempt per
provider (the body of the `try` for that provider, through JSON parsing)
together with whether `GOOGLE_AI_API_KEY` is configured. -/

inductive AIProvider where
  | openai | google | anthropic | cohere | azure | huggingface | perplexity
deriving DecidableEq, Repr

structure GatewayEnv (α : Type) where
  call : AIProvider → Except String α
  googleKeyConfigured : Bool

/-- `getAIResponse` (ai-providers.ts lines 64–133): try the requested
provider; on any thrown error, if the provider is not google and the
google key is configured, retry the whole request against google;
otherwise rethrow. -/
def getAIResponse {α : Type} (env : GatewayEnv α) (provider : AIProvider) :
    Except String α :=
  match env.call provider with
  | Except.ok v => Except.ok v
  | Except.error e =>
    if _h : provider ≠ AIProvider.google ∧ env.googleKeyConfigured = true then
      getAIResponse env AIProvider.google
    else Except.error e
termination_by (if provider = AIProvider.google then 0 else 1)
decreasing_by simp [_h.1]

/-- The sequence of providers `getAIResponse` attempts, in order. -/
def getAICallTrace {α : Type} (env : GatewayEnv α) (provider : AIProvider) :
    List AIProvider :=
  match env.call provider with
  | Except.ok _ => [provider]
  | Except.error _ =>
    if _h : provider ≠ AIProvider.google ∧ env.googleKeyConfigured = true then
      provider :: getAICallTrace env AIProvider.google
    else [provider]
termination_by (if provider = AIProvider.google then 0 else 1)
decreasing_by simp [_h.1]

theorem getAIResponse_google {α : Type} (env : GatewayEnv α) :
    getAIResponse env AIProvider.google = env.call AIProvider.google := by
  cases hc : env.call AIProvider.google <;> simp [getAIResponse, hc]

theorem getAICallTrace_google {α : Type} (env : GatewayEnv α) :
    getAICallTrace env AIProvider.google = [AIProvider.google] := by
  cases hc : env.call AIProvider.google <;> simp [getAICallTrace, hc]

/-- Claim C5: when the requested provider's call throws and the alternate
(google) is configured and is not the provider that failed, the whole
request is retried exactly once against google and google's result (or
failure) is returned; a successful primary is returned as is; the trace
never has more than two attempts and never retries the primary. -/
theorem gateway_fallback_policy :
    (∀ (α : Type) (env : GatewayEnv α) (p : AIProvider) (e : String),
       env.call p = Except.error e → p ≠ AIProvider.google →
       env.googleKeyConfigured = true →
       getAIResponse env p = env.call AIProvider.google
       ∧ getAICallTrace env p = [p, AIProvider.google])
    ∧ (∀ (α : Type) (env : GatewayEnv α) (p : AIProvider) (v : α),
       env.call p = Except.ok v →
       getAIResponse env p = Except.ok v ∧ getAICallTrace env p = [p])
    ∧ (∀ (α : Type) (env : GatewayEnv α) (p : AIProvider),
       (getAICallTrace env p).length ≤ 2 ∧ (getAICallTrace env p).count p = 1) := by
  refine ⟨?_, ?_, ?_⟩
  · intro α env p e hc hp hk
    constructor
    · cases hcg : env.call AIProvider.google <;>
        simp [getAIResponse, hc, hp, hk, hcg]
    · cases hcg : env.call AIProvider.google <;>
        simp [getAICallTrace, hc, hp, hk, hcg]
  · intro α env p v hc
    exact ⟨by simp [getAIResponse, hc], by simp [getAICallTrace, hc]⟩
  · intro α env p
    cases hc : env.call p with
    | ok v =>
      simp [getAICallTrace, hc]
    | error e =>
      by_cases h : p ≠ AIProvider.google ∧ env.googleKeyConfigured = true
      · have htr : getAICallTrace env p = [p, AIProvider.google] := by
          rw [getAICallTrace]
          rw [hc]
          exact (dif_pos h).trans (by rw [getAICallTrace_google])
        rw [htr]
        constructor
        · simp
        · simp [List.count_cons, List.count_nil]
          intro hg
          exact absurd hg.symm h.1
      · have htr : getAICallTrace env p = [p] := by
          rw [getAICallTrace]
          rw [hc]
          exact dif_neg h
        rw [htr]
        simp

/-- Witness for `gateway_fallback_policy`: openai fails, the key is set, so
the single google retry's value is returned after exactly the trace
`[openai, google]`. -/
theorem gateway_fallback_policy_witness :
    (getAIResponse
        { call := fun p => if p = AIProvider.openai then Except.error "netfail"
                           else Except.ok 7,
          googleKeyConfigured := true } AIProvider.openai
      = ({ call := fun p => if p = AIProvider.openai then Except.error "netfail"
                            else Except.ok 7,
           googleKeyConfigured := true } : GatewayEnv Nat).call AIProvider.google)
    ∧ getAICallTrace
        ({ call := fun p => if p = AIProvider.openai then Except.error "netfail"
                            else Except.ok 7,
           googleKeyConfigured := true } : GatewayEnv Nat) AIProvider.openai
      = [AIProvider.openai, AIProvider.google] :=
  gateway_fallback_policy.1 Nat
    { call := fun p => if p = AIProvider.openai then Except.error "netfail"
               else Except.ok 7,
      googleKeyConfigured := true }
    AIProvider.openai "netfail" (by simp) (by simp) rfl

/-! ## Response normalization (`parseAIResponseJSON`)

`responseText.replace(/^```json\s*|```\s*$/g, '')` strips a leading
"```json" (plus following whitespace) and a trailing "```" followed only
by whitespace, then `JSON.parse` runs on the cleaned text.  `JSON.parse`
itself is the platform primitive, passed in as `jsonParse`; parse failure
throws `Error('Failed to parse AI response as JSON')` (the raw text goes
to the console log only). -/

def backtickChar : Char := Char.ofNat 96

def fenceTicks : List Char := "```".data

def fenceJson : List Char := "```json".data

/-- The ECMAScript `\s` character class: tab through carriage return
(0x09-0x0D), space, no-break space, the Ogham space mark, the en-quad
through hair-space range (0x2000-0x200A), the line and paragraph
separators, the narrow no-break space, the medium mathematical space,
the ideographic space, and the byte-order mark. -/
def jsWhitespace (c : Char) : Bool :=
  (0x09 ≤ c.toNat && c.toNat ≤ 0x0D) || c.toNat == 0x20 || c.toNat == 0xA0
    || c.toNat == 0x1680 || (0x2000 ≤ c.toNat && c.toNat ≤ 0x200A)
    || c.toNat == 0x2028 || c.toNat == 0x2029 || c.toNat == 0x202F
    || c.toNat == 0x205F || c.toNat == 0x3000 || c.toNat == 0xFEFF

/-- The `^```json\s*` alternative: it can only match at the start. -/
def stripLeadingJsonFence (cs : List Char) : List Char :=
  if fenceJson.isPrefixOf cs then (cs.drop fenceJson.length).dropWhile jsWhitespace
  else cs

/-- The ````\s*$` alternative: scanning left to right, the first position
where three backticks are followed by nothing but whitespace ends the
output (the match runs to the end of the string). -/
def stripTrailingJsonFence : List Char → List Char
  | [] => []
  | c :: rest =>
    if fenceTicks.isPrefixOf (c :: rest)
        && ((c :: rest).drop fenceTicks.length).all jsWhitespace
    then []
    else c :: stripTrailingJsonFence rest

def stripJsonFence (s : String) : String :=
  String.mk (stripTrailingJsonFence (stripLeadingJsonFence s.data))

/-- `parseAIResponseJSON` (ai-providers.ts lines 51–60 and
ai-services-enhanced.ts lines 18–27). -/
def parseAIResponseJSON {α : Type} (jsonParse : String → Option α)
    (responseText : String) : Except String α :=
  match jsonParse (stripJsonFence responseText) with
  | some v => Except.ok v
  | none => Except.error "Failed to parse AI response as JSON"

theorem isInfix_cons_intro {c : Char} {l₁ l₂ : List Char} (h : l₁ <:+: l₂) :
    l₁ <:+: (c :: l₂) := by
  obtain ⟨s, t, hst⟩ := h
  exact ⟨c :: s, t, by simp [hst]⟩

theorem stripTrailing_of_no_ticks :
    ∀ (l : List Char), ¬ (fenceTicks <:+: l) → stripTrailingJsonFence l = l := by
  intro l
  induction l with
  | nil => intro _; rfl
  | cons c rest ih =>
    intro h
    have hrest : ¬ (fenceTicks <:+: rest) := fun hi => h (isInfix_cons_intro hi)
    have hpre : fenceTicks.isPrefixOf (c :: rest) = false := by
      by_contra hb
      rw [Bool.not_eq_false, List.isPrefixOf_iff_prefix] at hb
      obtain ⟨t, ht⟩ := hb
      exact h ⟨[], t, by simp [ht]⟩
    simp only [stripTrailingJsonFence, hpre, Bool.false_and, if_neg Bool.false_ne_true]
    rw [ih hrest]

theorem stripTrailing_append_ticks :
    ∀ (l : List Char), ¬ (fenceTicks <:+: l) →
      stripTrailingJsonFence (l ++ fenceTicks) = l := by
  intro l
  induction l with
  | nil => decide
  | cons c rest ih =>
    intro h
    have hrest : ¬ (fenceTicks <:+: rest) := fun hi => h (isInfix_cons_intro hi)
    have hcond : (fenceTicks.isPrefixOf (c :: (rest ++ fenceTicks))
        && ((c :: (rest ++ fenceTicks)).drop fenceTicks.length).all jsWhitespace)
        = false := by
      by_contra hb
      rw [Bool.not_eq_false, Bool.and_eq_true] at hb
      obtain ⟨_, hall⟩ := hb
      have hftl : fenceTicks.length = 3 := by decide
      have hdropne : (c :: (rest ++ fenceTicks)).drop fenceTicks.length ≠ [] := by
        have hlen : ((c :: (rest ++ fenceTicks)).drop fenceTicks.length).length
            = rest.length + 1 := by
          simp [List.length_drop, hftl]
        intro hnil
        rw [hnil] at hlen
        simp at hlen
      obtain ⟨p, hp⟩ := List.drop_suffix fenceTicks.length (c :: (rest ++ fenceTicks))
      have hxslast : (c :: (rest ++ fenceTicks)).getLast? = some backtickChar := by
        rw [← List.cons_append, List.getLast?_append]
        have hft : fenceTicks.getLast? = some backtickChar := by decide
        rw [hft]
        rfl
      have hdl : ((c :: (rest ++ fenceTicks)).drop fenceTicks.length).getLast?
          = some backtickChar := by
        obtain ⟨d, hd⟩ := Option.isSome_iff_exists.mp
          (List.getLast?_isSome.mpr hdropne)
        have hlast : (c :: (rest ++ fenceTicks)).getLast? = some d := by
          rw [← hp, List.getLast?_append, hd]
          rfl
        rw [hd]
        rw [hlast] at hxslast
        exact hxslast
      obtain ⟨ys, hys⟩ := List.getLast?_eq_some_iff.mp hdl
      have hmem : backtickChar ∈ (c :: (rest ++ fenceTicks)).drop fenceTicks.length := by
        rw [hys]
        simp
      have hwsb := List.all_eq_true.mp hall backtickChar hmem
      exact absurd hwsb (by decide)
    rw [List.cons_append]
    simp only [stripTrailingJsonFence, hcond, if_neg Bool.false_ne_true]
    rw [ih hrest]

theorem stripLeading_of_no_ticks (l : List Char) (h : ¬ (fenceTicks <:+: l)) :
    stripLeadingJsonFence l = l := by
  have hpre : fenceJson.isPrefixOf l = false := by
    by_contra hb
    rw [Bool.not_eq_false, List.isPrefixOf_iff_prefix] at hb
    have htj : fenceTicks <+: fenceJson := by decide
    obtain ⟨t, ht⟩ := htj.trans hb
    exact h ⟨[], t, by simp [ht]⟩
  simp [stripLeadingJsonFence, hpre]

theorem stripLeading_append (rest : List Char) :
    stripLeadingJsonFence (fenceJson ++ rest) = rest.dropWhile jsWhitespace := by
  have hpre : fenceJson.isPrefixOf (fenceJson ++ rest) = true := by
    rw [List.isPrefixOf_iff_prefix]
    exact List.prefix_append fenceJson rest
  simp [stripLeadingJsonFence, hpre, List.drop_left]

theorem stripJsonFence_of_no_ticks (t : String) (h : ¬ (fenceTicks <:+: t.data)) :
    stripJsonFence t = t := by
  rw [stripJsonFence, stripLeading_of_no_ticks t.data h,
    stripTrailing_of_no_ticks t.data h, string_mk_data]

theorem stripJsonFence_wrapped (t : String) (h : ¬ (fenceTicks <:+: t.data))
    (hws : t.data.dropWhile jsWhitespace = t.data) :
    stripJsonFence ("```json" ++ t ++ "```") = t := by
  have hdata : ("```json" ++ t ++ "```").data = fenceJson ++ (t.data ++ fenceTicks) := by
    simp [fenceJson, fenceTicks, List.append_assoc]
  have hdw : (t.data ++ fenceTicks).dropWhile jsWhitespace
      = t.data ++ fenceTicks := by
    cases hcd : t.data with
    | nil => decide
    | cons c l =>
      have hc : ¬ (jsWhitespace c = true) := by
        intro hcw
        rw [hcd, List.dropWhile_cons_of_pos hcw] at hws
        have := (List.dropWhile_sublist (l := l) jsWhitespace).length_le
        rw [hws] at this
        simp at this
      rw [List.cons_append]
      exact List.dropWhile_cons_of_neg hc
  rw [stripJsonFence, hdata, stripLeading_append, hdw,
    stripTrailing_append_ticks t.data h, string_mk_data]

/-- Claim C6 (counterexample): the raised parse error does not carry the raw
response text — two different raw texts yield the identical error value, a
fixed message (the raw text is only written to the console log). -/
theorem parse_error_carries_no_raw_text :
    parseAIResponseJSON (fun _ : String => (none : Option Unit)) "alpha"
      = Except.error "Failed to parse AI response as JSON"
    ∧ parseAIResponseJSON (fun _ : String => (none : Option Unit)) "beta"
      = Except.error "Failed to parse AI response as JSON"
    ∧ ("alpha" : String) ≠ "beta" :=
  ⟨rfl, rfl, by decide⟩

/-- Claim C6 (amended): a response wrapped in a ```json fence parses to the
same result as the unwrapped text (for texts without a triple backtick or
leading whitespace), and a parse failure raises an error rather than being
swallowed — but the error carries only the fixed message
"Failed to parse AI response as JSON", not the raw response text. -/
theorem fence_stripping_and_parse_error :
    (∀ (α : Type) (jsonParse : String → Option α) (t : String),
       ¬ (fenceTicks <:+: t.data) →
       t.data.dropWhile jsWhitespace = t.data →
       parseAIResponseJSON jsonParse ("```json" ++ t ++ "```")
         = parseAIResponseJSON jsonParse t)
    ∧ (∀ (α : Type) (jsonParse : String → Option α) (s : String),
       jsonParse (stripJsonFence s) = none →
       parseAIResponseJSON jsonParse s
         = Except.error "Failed to parse AI response as JSON") := by
  constructor
  · intro α jsonParse t h hws
    rw [parseAIResponseJSON, parseAIResponseJSON, stripJsonFence_wrapped t h hws,
      stripJsonFence_of_no_ticks t h]
  · intro α jsonParse s hp
    rw [parseAIResponseJSON, hp]

/-- Witness for `fence_stripping_and_parse_error` at a concrete parser and
concrete texts. -/
theorem fence_stripping_and_parse_error_witness :
    parseAIResponseJSON (fun s => if s = "7" then some 7 else none) ("```json" ++ "7" ++ "```")
      = parseAIResponseJSON (fun s => if s = "7" then some 7 else none) "7"
    ∧ parseAIResponseJSON (fun _ : String => (none : Option Nat)) "oops"
      = Except.error "Failed to parse AI response as JSON" :=
  ⟨fence_stripping_and_parse_error.1 Nat (fun s => if s = "7" then some 7 else none) "7"
     (by decide) (by decide),
   fence_stripping_and_parse_error.2 Nat (fun _ => none) "oops" rfl⟩

/-! ## Multi-provider consensus (`ai-services-enhanced.ts`,
`multiProviderConsensus`)

`analysisFunction(content, provider)` and the synthesis prompt's gateway
call (`getAIResponse(consensusPrompt, 'openai', 0.2)` — the local
`getAIResponse` of ai-services-enhanced.ts, which has no fallback) are
external calls, packaged in a `ConsensusEnv`. -/

structure ConsensusEnv (α : Type) where
  analysisCall : AIProvider → Except String α
  synthesisCall : List (AIProvider × α) → Except String α

/-- The provider loop: each provider is tried in order; a successful
analysis is pushed with its provider, a failure is skipped. -/
def consensusSurvivors {α : Type} (env : ConsensusEnv α)
    (providers : List AIProvider) : List (AIProvider × α) :=
  providers.filterMap (fun provider =>
    match env.analysisCall provider with
    | Except.ok analysis => some (provider, analysis)
    | Except.error _ => none)

/-- `multiProviderConsensus` (ai-services-enhanced.ts lines 266–314):
zero survivors throw the aggregate error, one survivor is returned
directly, two or more trigger the single synthesis call. -/
def multiProviderConsensus {α : Type} (env : ConsensusEnv α)
    (providers : List AIProvider) : Except String α :=
  match consensusSurvivors env providers with
  | [] => Except.error "All AI providers failed to complete analysis"
  | [single] => Except.ok single.2
  | surviving => env.synthesisCall surviving

/-- Claim C7 (counterexample): with two providers succeeding but the
synthesis call failing, `multiProviderConsensus` fails even though at
least one provider succeeded, contradicting "succeeds whenever at least
one provider succeeds". -/
theorem consensus_synthesis_failure_counterexample :
    ({ analysisCall := fun _ => Except.ok 1,
       synthesisCall := fun _ => Except.error "synthesis provider failed" }
        : ConsensusEnv Nat).analysisCall AIProvider.openai = Except.ok 1
    ∧ multiProviderConsensus
        ({ analysisCall := fun _ => Except.ok 1,
           synthesisCall := fun _ => Except.error "synthesis provider failed" }
          : ConsensusEnv Nat)
        [AIProvider.openai, AIProvider.google]
      = Except.error "synthesis provider failed" :=
  ⟨rfl, rfl⟩

/-- Claim C7 (amended): failing providers are skipped; all providers
failing raises the aggregate error; exactly one survivor is returned
directly (so one success suffices when it is the only one); two or more
survivors trigger exactly one synthesis call over the surviving analyses
and its result — success or failure — is the result of the whole call. -/
theorem consensus_policy :
    (∀ (α : Type) (env : ConsensusEnv α) (providers : List AIProvider)
       (p : AIProvider) (e : String) (a : α),
       env.analysisCall p = Except.error e →
       (p, a) ∉ consensusSurvivors env providers)
    ∧ (∀ (α : Type) (env : ConsensusEnv α) (providers : List AIProvider),
       consensusSurvivors env providers = [] →
       multiProviderConsensus env providers
         = Except.error "All AI providers failed to complete analysis")
    ∧ (∀ (α : Type) (env : ConsensusEnv α) (providers : List AIProvider)
       (s : AIProvider × α),
       consensusSurvivors env providers = [s] →
       multiProviderConsensus env providers = Except.ok s.2)
    ∧ (∀ (α : Type) (env : ConsensusEnv α) (providers : List AIProvider),
       2 ≤ (consensusSurvivors env providers).length →
       multiProviderConsensus env providers
         = env.synthesisCall (consensusSurvivors env providers)) := by
  refine ⟨?_, ?_, ?_, ?_⟩
  · intro α env providers p e a hfail hmem
    rw [consensusSurvivors] at hmem
    obtain ⟨q, _, hq⟩ := List.mem_filterMap.mp hmem
    rw [show q = p from ?_, hfail] at hq
    · simp at hq
    · cases hcq : env.analysisCall q <;> rw [hcq] at hq <;> simp_all
  · intro α env providers hnone
    rw [multiProviderConsensus, hnone]
  · intro α env providers s hone
    rw [multiProviderConsensus, hone]
  · intro α env providers hlen
    rcases hs : consensusSurvivors env providers with _ | ⟨x, _ | ⟨y, rest⟩⟩
    · rw [hs] at hlen; simp at hlen
    · rw [hs] at hlen; simp at hlen
    · rw [multiProviderConsensus, hs]

/-- Witness for `consensus_policy` at a concrete environment: google fails
and is skipped, openai and anthropic survive, and the synthesis call over
the two survivors is the result. -/
theorem consensus_policy_witness :
    ((AIProvider.google, 5) ∉ consensusSurvivors
        ({ analysisCall := fun p => if p = AIProvider.google then Except.error "down"
                                    else Except.ok 5,
           synthesisCall := fun l => Except.ok l.length } : ConsensusEnv Nat)
        [AIProvider.openai, AIProvider.google, AIProvider.anthropic])
    ∧ multiProviderConsensus
        ({ analysisCall := fun p => if p = AIProvider.google then Except.error "down"
                                    else Except.ok 5,
           synthesisCall := fun l => Except.ok l.length } : ConsensusEnv Nat)
        [AIProvider.openai, AIProvider.google, AIProvider.anthropic]
      = ({ analysisCall := fun p => if p = AIProvider.google then Except.error "down"
                                    else Except.ok 5,
           synthesisCall := fun l => Except.ok l.length } : ConsensusEnv Nat).synthesisCall
          (consensusSurvivors
            ({ analysisCall := fun p => if p = AIProvider.google then Except.error "down"
                                        else Except.ok 5,
               synthesisCall := fun l => Except.ok l.length } : ConsensusEnv Nat)
            [AIProvider.openai, AIProvider.google, AIProvider.anthropic]) :=
  ⟨consensus_policy.1 Nat
     { analysisCall := fun p => if p = AIProvider.google then Except.error "down"
                                else Except.ok 5,
       synthesisCall := fun l => Except.ok l.length }
     [AIProvider.openai, AIProvider.google, AIProvider.anthropic]
     AIProvider.google "down" 5 (by simp),
   consensus_policy.2.2.2 Nat
     { analysisCall := fun p => if p = AIProvider.google then Except.error "down"
                                else Except.ok 5,
       synthesisCall := fun l => Except.ok l.length }
     [AIProvider.openai, AIProvider.google, AIProvider.anthropic]
     (by simp [consensusSurvivors, List.filterMap])⟩

/-! ## Change store (`storage.ts`, `MemStorage`)

The three `Map`s become functions `Nat → Option _`; the id counters start
at 1.  `new Date()` timestamps are supplied as `now : Nat` parameters. -/

structure StoredDocument where
  id : Nat
  name : String
  content : String
  originalContent : Option String := none
  mimeType : Option String := none
  createdAt : Nat
  updatedAt : Nat
deriving DecidableEq, Repr

structure InsertDocument where
  name : String
  content : String
  originalContent : Option String := none
  mimeType : Option String := none
deriving DecidableEq, Repr

structure StoredRevision where
  id : Nat
  documentId : Nat
  content : String
  changes : List Change
  isAccepted : Option Bool := none
  createdAt : Nat
deriving DecidableEq, Repr

structure StoredChange where
  id : Nat
  revisionId : Nat
  type : String
  lineNumber : Int
  content : String
  originalContent : Option String := none
  status : String
  createdAt : Nat
deriving DecidableEq, Repr

/-- `Partial<InsertChange>`: absent fields are `none`; `originalContent`
can also be present with value null, hence the nested option. -/
structure PartialInsertChange where
  revisionId : Option Nat := none
  type : Option String := none
  lineNumber : Option Int := none
  content : Option String := none
  originalContent : Option (Option String) := none
  status : Option String := none
deriving DecidableEq, Repr

structure MemStorage where
  documents : Nat → Option StoredDocument
  revisions : Nat → Option StoredRevision
  changes : Nat → Option StoredChange
  currentDocumentId : Nat
  currentRevisionId : Nat
  currentChangeId : Nat

/-- The `MemStorage` constructor. -/
def emptyMemStorage : MemStorage :=
  { documents := fun _ => none, revisions := fun _ => none, changes := fun _ => none,
    currentDocumentId := 1, currentRevisionId := 1, currentChangeId := 1 }

/-- `createDocument`: assign `currentDocumentId++`, stamp both dates. -/
def createDocument (s : MemStorage) (insertDocument : InsertDocument) (now : Nat) :
    StoredDocument × MemStorage :=
  let id := s.currentDocumentId
  let document : StoredDocument :=
    { id := id, name := insertDocument.name, content := insertDocument.content,
      originalContent := insertDocument.originalContent,
      mimeType := insertDocument.mimeType, createdAt := now, updatedAt := now }
  (document,
   { s with currentDocumentId := id + 1,
            documents := fun k => if k = id then some document else s.documents k })

/-- `deleteDocument`: `Map.delete` returns whether the key existed. -/
def deleteDocument (s : MemStorage) (id : Nat) : Bool × MemStorage :=
  ((s.documents id).isSome,
   { s with documents := fun k => if k = id then none else s.documents k })

/-- `updateChange`: merge the partial update over the stored record
(`{...change, ...updateData}`), re-store under the same id. -/
def updateChange (s : MemStorage) (id : Nat) (updateData : PartialInsertChange) :
    Option StoredChange × MemStorage :=
  match s.changes id with
  | none => (none, s)
  | some change =>
    let updatedChange : StoredChange :=
      { id := change.id, createdAt := change.createdAt,
        revisionId := updateData.revisionId.getD change.revisionId,
        type := updateData.type.getD change.type,
        lineNumber := updateData.lineNumber.getD change.lineNumber,
        content := updateData.content.getD change.content,
        originalContent := updateData.originalContent.getD change.originalContent,
        status := updateData.status.getD change.status }
    (some updatedChange,
     { s with changes := fun k => if k = id then some updatedChange else s.changes k })

/-- The `status: 'accepted' | 'rejected'` parameter type of
`updateChangeStatus`. -/
inductive ResolvedStatus where
  | accepted | rejected
deriving DecidableEq, Repr

def ResolvedStatus.asString : ResolvedStatus → String
  | .accepted => "accepted"
  | .rejected => "rejected"

/-- `updateChangeStatus(id, status)` delegates to `updateChange`. -/
def updateChangeStatus (s : MemStorage) (id : Nat) (status : ResolvedStatus) :
    Option StoredChange × MemStorage :=
  updateChange s id { status := some status.asString }

inductive PatchResult where
  | invalidStatus
  | notFound
  | ok (c : StoredChange)
deriving DecidableEq, Repr

/-- The `PATCH /api/changes/:id/status` handler: reject statuses outside
accepted/rejected with a 400 before touching the store, 404 when the
change does not exist, otherwise return the updated change. -/
def patchChangeStatus (s : MemStorage) (id : Nat) (status : String) :
    PatchResult × MemStorage :=
  if status ≠ "accepted" ∧ status ≠ "rejected" then (PatchResult.invalidStatus, s)
  else
    let st : ResolvedStatus :=
      if status = "accepted" then ResolvedStatus.accepted else ResolvedStatus.rejected
    match updateChangeStatus s id st with
    | (none, s2) => (PatchResult.notFound, s2)
    | (some c, s2) => (PatchResult.ok c, s2)

/-- Claim C8 (counterexample): neither the store nor the PATCH handler
checks the current status, so a Change already resolved to "accepted" is
transitioned again — the handler happily flips it to "rejected". -/
theorem resolved_change_retransition_counterexample :
    (patchChangeStatus
        { emptyMemStorage with
            changes := fun k =>
              if k = 1 then
                some { id := 1, revisionId := 1, type := "addition", lineNumber := 1,
                       content := "hi", originalContent := none, status := "accepted",
                       createdAt := 0 }
              else none }
        1 "rejected").1
      = PatchResult.ok { id := 1, revisionId := 1, type := "addition", lineNumber := 1,
                         content := "hi", originalContent := none, status := "rejected",
                         createdAt := 0 }
    ∧ ((patchChangeStatus
        { emptyMemStorage with
            changes := fun k =>
              if k = 1 then
                some { id := 1, revisionId := 1, type := "addition", lineNumber := 1,
                       content := "hi", originalContent := none, status := "accepted",
                       createdAt := 0 }
              else none }
        1 "rejected").2.changes 1)
      = some { id := 1, revisionId := 1, type := "addition", lineNumber := 1,
               content := "hi", originalContent := none, status := "rejected",
               createdAt := 0 }
    ∧ ("accepted" : String) ≠ "rejected" := by
  refine ⟨?_, ?_, by decide⟩
  · rfl
  · rfl

/-- Claim C8 (amended): the PATCH handler answers 400 to any status outside
accepted/rejected without touching the store, and `updateChangeStatus`
always sets the target's status to the given resolved status (never back to
pending) and answers "not found" for unknown ids — but resolution is not
terminal: nothing prevents a later transition of a resolved Change (see the
counterexample). -/
theorem change_status_transitions :
    (∀ (s : MemStorage) (id : Nat) (status : String),
       status ≠ "accepted" → status ≠ "rejected" →
       patchChangeStatus s id status = (PatchResult.invalidStatus, s))
    ∧ (∀ (s : MemStorage) (id : Nat) (st : ResolvedStatus) (c : StoredChange),
       (updateChangeStatus s id st).1 = some c →
       c.status = st.asString ∧ (c.status = "accepted" ∨ c.status = "rejected"))
    ∧ (∀ (s : MemStorage) (id : Nat) (st : ResolvedStatus),
       s.changes id = none → (updateChangeStatus s id st).1 = none) := by
  refine ⟨?_, ?_, ?_⟩
  · intro s id status h1 h2
    rw [patchChangeStatus, if_pos ⟨h1, h2⟩]
  · intro s id st c h
    cases hc : s.changes id with
    | none =>
      rw [updateChangeStatus, updateChange, hc] at h
      simp at h
    | some ch =>
      rw [updateChangeStatus, updateChange, hc] at h
      simp only [Option.some.injEq] at h
      subst h
      constructor
      · rfl
      · cases st <;> simp [ResolvedStatus.asString]
  · intro s id st h
    rw [updateChangeStatus, updateChange, h]

/-- Witness for `change_status_transitions` at concrete stores. -/
theorem change_status_transitions_witness :
    patchChangeStatus emptyMemStorage 1 "bogus" = (PatchResult.invalidStatus, emptyMemStorage)
    ∧ (({ id := 1, revisionId := 1, type := "addition", lineNumber := 1,
          content := "hi", originalContent := none, status := "accepted",
          createdAt := 0 } : StoredChange).status = "accepted"
       ∧ (({ id := 1, revisionId := 1, type := "addition", lineNumber := 1,
             content := "hi", originalContent := none, status := "accepted",
             createdAt := 0 } : StoredChange).status = "accepted"
          ∨ ({ id := 1, revisionId := 1, type := "addition", lineNumber := 1,
               content := "hi", originalContent := none, status := "accepted",
               createdAt := 0 } : StoredChange).status = "rejected"))
    ∧ (updateChangeStatus emptyMemStorage 1 ResolvedStatus.accepted).1 = none :=
  ⟨change_status_transitions.1 emptyMemStorage 1 "bogus" (by decide) (by decide),
   change_status_transitions.2.1
     { emptyMemStorage with
         changes := fun k =>
           if k = 1 then
             some { id := 1, revisionId := 1, type := "pending-change", lineNumber := 1,
                    content := "hi", originalContent := none, status := "pending",
                    createdAt := 0 }
           else none }
     1 ResolvedStatus.accepted
     { id := 1, revisionId := 1, type := "pending-change", lineNumber := 1,
       content := "hi", originalContent := none, status := "accepted", createdAt := 0 }
     rfl,
   change_status_transitions.2.2 emptyMemStorage 1 ResolvedStatus.accepted rfl⟩

/-! ## Document id assignment (claim C9) -/

inductive DocOp where
  | createDoc (d : InsertDocument) (now : Nat)
  | deleteDoc (id : Nat)

def applyDocOp (s : MemStorage) : DocOp → MemStorage
  | DocOp.createDoc d now => (createDocument s d now).2
  | DocOp.deleteDoc id => (deleteDocument s id).2

/-- The ids handed out by `createDocument` along a sequence of create and
delete operations. -/
def createdDocIds : MemStorage → List DocOp → List Nat
  | _, [] => []
  | s, DocOp.createDoc d now :: ops =>
    (createDocument s d now).1.id :: createdDocIds (createDocument s d now).2 ops
  | s, DocOp.deleteDoc id :: ops => createdDocIds (deleteDocument s id).2 ops

def numCreates : List DocOp → Nat
  | [] => 0
  | DocOp.createDoc _ _ :: ops => numCreates ops + 1
  | DocOp.deleteDoc _ :: ops => numCreates ops

theorem createdDocIds_eq_range (ops : List DocOp) :
    ∀ s : MemStorage,
      createdDocIds s ops = List.range' s.currentDocumentId (numCreates ops) := by
  induction ops with
  | nil => intro s; rfl
  | cons op ops ih =>
    intro s
    cases op with
    | createDoc d now =>
      simp only [createdDocIds, numCreates, ih, List.range'_succ]
      rfl
    | deleteDoc id =>
      simp only [createdDocIds, numCreates, ih]
      rfl

/-- Claim C9: per store instance, `createDocument` hands out strictly
increasing integer ids starting at 1, even across interleaved deletions
(ids are never reused); `deleteDocument` on an unknown id returns false
rather than raising. -/
theorem document_id_assignment :
    (∀ ops : List DocOp,
       createdDocIds emptyMemStorage ops = List.range' 1 (numCreates ops))
    ∧ (∀ ops : List DocOp, (createdDocIds emptyMemStorage ops).Pairwise (· < ·))
    ∧ (∀ (s : MemStorage) (id : Nat), s.documents id = none →
       (deleteDocument s id).1 = false ∧ (deleteDocument s id).2.documents id = none) := by
  refine ⟨?_, ?_, ?_⟩
  · intro ops
    exact createdDocIds_eq_range ops emptyMemStorage
  · intro ops
    rw [createdDocIds_eq_range ops emptyMemStorage]
    exact List.pairwise_lt_range' 1 (numCreates ops)
  · intro s id h
    constructor
    · simp [deleteDocument, h]
    · simp [deleteDocument]

/-- Witness for `document_id_assignment`: deleting the absent id 5 from the
fresh store reports false and leaves it absent. -/
theorem document_id_assignment_witness :
    (deleteDocument emptyMemStorage 5).1 = false
    ∧ (deleteDocument emptyMemStorage 5).2.documents 5 = none :=
  document_id_assignment.2.2 emptyMemStorage 5 rfl
